import Mathlib

/-!
Verification of the `myshell` interactive command interpreter (src/main.c)
against its natural-language specification.

The development shallowly embeds the C source: C strings become `List Char`
(the characters before the terminating NUL), the fixed 1024-byte line buffer
of the line editor becomes a `List Char` of length 1024, machine integers
become `Nat`, and the OS-facing parts (fork/dup2/waitpid, termios) become
explicit state passing.  Every definition is translated from the functions in
src/main.c; the constants mirror the `#define`s there.
-/

namespace Shell

/-- MAX_CMD_LEN from src/main.c. -/
def MAX_CMD_LEN : Nat := 1024

/-- MAX_ARGS from src/main.c. -/
def MAX_ARGS : Nat := 64

/-- MAX_PIPES from src/main.c. -/
def MAX_PIPES : Nat := 10

/-- MAX_HISTORY from src/main.c. -/
def MAX_HISTORY : Nat := 100

/-- The NUL character, the C string terminator. -/
def NUL : Char := Char.ofNat 0

/-- C `strlen` on a byte buffer: the number of characters before the first
NUL (the whole list when no NUL occurs). -/
def strlen (l : List Char) : Nat := (l.takeWhile (fun c => c ≠ NUL)).length

/-- A buffer is NUL-padded when every byte from position `strlen` on is NUL:
the buffer is a well-formed C string with no garbage after its terminator. -/
def padded (l : List Char) : Prop :=
  l.drop (strlen l) = List.replicate (l.length - strlen l) NUL

instance (l : List Char) : Decidable (padded l) := by
  unfold padded; infer_instance

/-- C `strncpy(dst, src, n)` where `dst` is an `n`-byte buffer: copies `src`
up to its terminator (at most `n` bytes) and pads the remainder of `dst`
with NUL bytes. -/
def strncpyList (src : List Char) (n : Nat) : List Char :=
  src.take (min (strlen src) n) ++ List.replicate (n - min (strlen src) n) NUL

/-! ## History Store (src/main.c lines 27-63)

`char *history[MAX_HISTORY]; int history_count;` — the occupied slots of the
array are modelled as `entries` (in array order), and the counter as
`count`.  In every state reachable from the empty store,
`entries.length = min count MAX_HISTORY`. -/

structure HistState where
  entries : List (List Char)
  count : Nat
deriving DecidableEq, Repr

def histInit : HistState := ⟨[], 0⟩

/-- Function `add_to_history` from src/main.c lines 43-56: ignore the empty line;
below capacity, write into slot `history_count`; at capacity, free slot 0,
shift every slot down by one and write the new line into the last slot.
`history_count` is incremented in both branches. -/
def add_to_history (cmd : List Char) (h : HistState) : HistState :=
  if cmd = [] then h
  else if h.count < MAX_HISTORY then
    { entries := h.entries ++ [cmd], count := h.count + 1 }
  else
    { entries := h.entries.drop 1 ++ [cmd], count := h.count + 1 }

/-- Function `show_history` from src/main.c lines 58-63, as the list of
(display index, line) pairs it prints: `start` is
`history_count - MAX_HISTORY` once the counter exceeds the capacity, and
entry `i` is printed as `i+1: history[i % MAX_HISTORY]`. -/
def show_history (h : HistState) : List (Nat × List Char) :=
  let start := if h.count > MAX_HISTORY then h.count - MAX_HISTORY else 0
  (List.range (h.count - start)).map (fun k =>
    (start + k + 1, (h.entries.get? ((start + k) % MAX_HISTORY)).getD []))

/-- Submitting a sequence of lines to the history store, oldest first. -/
def submitAll (lines : List (List Char)) : HistState :=
  lines.foldl (fun h l => add_to_history l h) histInit

/-- 101 distinct non-empty one-character lines, used as a concrete
overflow scenario for the claims about the history capacity. -/
def lines101 : List (List Char) :=
  (List.range 101).map (fun k => [Char.ofNat (33 + k)])

/-! ## Parser (src/main.c lines 216-297)

`strtok_r(s, delims, &saveptr)` is modelled on the remaining buffer: skip
leading delimiters; if nothing is left return NULL; otherwise the token is
the maximal delimiter-free run, the delimiter terminating it is consumed
(overwritten with NUL by the C code), and the rest of the buffer is what the
save pointer refers to afterwards. -/

def strtok (delim : Char → Bool) (s : List Char) : Option (List Char × List Char) :=
  if (s.dropWhile delim).isEmpty then none
  else
    some ((s.dropWhile delim).takeWhile (fun c => !(delim c)),
          ((s.dropWhile delim).drop
            ((s.dropWhile delim).takeWhile (fun c => !(delim c))).length).tail)

/-- The delimiter set `" \t"` used for argument tokenization. -/
def isWs (c : Char) : Bool := c = ' ' || c = '\t'

theorem dropWhile_head_false {α : Type} (p : α → Bool) (s : List α) {c : α}
    {t : List α} (h : s.dropWhile p = c :: t) : p c = false := by
  induction s with
  | nil => simp [List.dropWhile] at h
  | cons a s ih =>
    rw [List.dropWhile_cons] at h
    by_cases hp : p a
    · simp [hp] at h; exact ih h
    · simp [hp] at h
      rw [← h.1]
      simp [hp]

theorem strtok_some_facts {delim : Char → Bool} {s tok rest : List Char}
    (h : strtok delim s = some (tok, rest)) :
    1 ≤ tok.length ∧ tok.length + rest.length ≤ s.length := by
  unfold strtok at h
  by_cases he : (s.dropWhile delim).isEmpty
  · simp [he] at h
  · simp only [he, if_false, Option.some.injEq, Prod.mk.injEq] at h
    obtain ⟨htok, hrest⟩ := h
    have hs1len : (s.dropWhile delim).length ≤ s.length :=
      (List.dropWhile_suffix delim).length_le
    have hne : s.dropWhile delim ≠ [] := by
      intro hx; rw [hx] at he; simp at he
    obtain ⟨c, t, hm⟩ : ∃ c t, s.dropWhile delim = c :: t := by
      cases hx : s.dropWhile delim with
      | nil => exact absurd hx hne
      | cons c t => exact ⟨c, t, rfl⟩
    have hc : delim c = false := dropWhile_head_false delim s hm
    constructor
    · rw [hm, List.takeWhile_cons_of_pos (by simp [hc])]
      simp
    · have h1 : (List.takeWhile (fun x => !delim x) (s.dropWhile delim)).length
          ≤ (s.dropWhile delim).length := (List.takeWhile_prefix _).length_le
      simp only [List.length_tail, List.length_drop]
      omega

/-- Whitespace trimming of a pipe segment, src/main.c lines 224-228: skip
leading space characters, then cut trailing space characters (only `' '`;
tab characters are not trimmed). -/
def trimSpaces (t : List Char) : List Char :=
  let t1 := t.dropWhile (fun c => c = ' ')
  (t1.reverse.dropWhile (fun c => c = ' ')).reverse

/-- The `Command` struct of src/main.c: the argument vector (the strings
before the NULL sentinel), the optional redirection paths, and the append
and background flags. -/
structure Command where
  args : List (List Char)
  input_file : Option (List Char)
  output_file : Option (List Char)
  append : Bool
  background : Bool
deriving DecidableEq, Repr, Inhabited

/-- A freshly initialised stage, src/main.c lines 236-239. -/
def initCmd : Command :=
  { args := [], input_file := none, output_file := none,
    append := false, background := false }

/-- The argument walk of `parse_pipeline`, src/main.c lines 246-289.
`arg` is the current token, `buf` the remaining segment text behind the
save pointer of the tokenizer, `st` the stage built so far.

* `>` / `>>`: take the next whitespace token as the output file; if it
  begins with a quote, re-tokenize by `"` instead (the following whitespace
  token is fetched and discarded, which cannot affect the stage because the
  branch breaks out of the walk immediately); then break.
* `<`: take the next whitespace token, if any, as the input file; break.
* `&`: set the background flag and continue.
* a token starting with `"` whose closing quote lies within the same token:
  the span between the quotes becomes one argument and the walk continues
  on the remainder of the token (`arg = end_quote + 1; continue;`).
* anything else is appended as a positional argument.

The walk runs while fewer than MAX_ARGS - 1 arguments have been stored. -/
def argWalk (arg : List Char) (buf : List Char) (st : Command) : Command :=
  if st.args.length < MAX_ARGS - 1 then
    if arg = ['>'] ∨ arg = ['>', '>'] then
      match strtok isWs buf with
      | none => st
      | some (f, b2) =>
        if f.head? = some '"' then
          match strtok (fun c => c = '"') b2 with
          | none => st
          | some (f2, _) => { st with output_file := some f2, append := arg = ['>', '>'] }
        else { st with output_file := some f, append := arg = ['>', '>'] }
    else if arg = ['<'] then
      match strtok isWs buf with
      | none => st
      | some (f, _) => { st with input_file := some f }
    else if arg = ['&'] then
      match h1 : strtok isWs buf with
      | none => { st with background := true }
      | some (a2, b2) => argWalk a2 b2 { st with background := true }
    else if hq : arg.head? = some '"' ∧ '"' ∈ arg.tail then
      argWalk ((arg.tail.drop (arg.tail.takeWhile (fun c => c ≠ '"')).length).tail) buf
        { st with args := st.args ++ [arg.tail.takeWhile (fun c => c ≠ '"')] }
    else
      match h2 : strtok isWs buf with
      | none => { st with args := st.args ++ [arg] }
      | some (a2, b2) => argWalk a2 b2 { st with args := st.args ++ [arg] }
  else st
termination_by arg.length + 2 * buf.length
decreasing_by
  · have := strtok_some_facts h1
    omega
  · have ha : arg ≠ [] := by
      intro hx
      rw [hx] at hq
      simp at hq
    have hlen : 1 ≤ arg.length := List.length_pos.mpr ha
    simp only [List.length_tail, List.length_drop]
    omega
  · have := strtok_some_facts h2
    omega

/-- Parsing one trimmed non-empty pipe segment into a stage: the first
whitespace token starts the walk; if the segment tokenizes to nothing
(e.g. it consists of tab characters, which the trim does not remove) the
walk never runs and the stage keeps an empty argument vector
(`args[0] = NULL`). -/
def parseStage (t : List Char) : Command :=
  match strtok isWs t with
  | none => initCmd
  | some (a, rest) => argWalk a rest initCmd

/-- The segment loop of `parse_pipeline`, src/main.c lines 221-293:
split on `|`, trim spaces, skip segments that trim to nothing, and build a
stage from each remaining segment while fewer than MAX_PIPES stages exist. -/
def parsePipeGo (rest : List Char) (count : Nat) : List Command :=
  if count < MAX_PIPES then
    match _h : strtok (fun c => c = '|') rest with
    | none => []
    | some (tok, rest2) =>
      let t := trimSpaces tok
      if t = [] then parsePipeGo rest2 count
      else parseStage t :: parsePipeGo rest2 (count + 1)
  else []
termination_by rest.length
decreasing_by
  all_goals have := strtok_some_facts _h
  all_goals omega

/-- Function `parse_pipeline` from src/main.c lines 216-297, returning the list of
parsed stages (the C function fills `pipeline[]` and returns their count). -/
def parse_pipeline (line : List Char) : List Command :=
  parsePipeGo line 0

/-- The in-child quote stripping of `execute_command`, src/main.c lines
301-308: an argument of length at least 2 that both starts and ends with a
quote character loses those two characters. -/
def stripQuotes (arg : List Char) : List Char :=
  if 2 ≤ arg.length ∧ arg.head? = some '"' ∧ arg.getLast? = some '"' then
    (arg.drop 1).dropLast
  else arg

/-- The argument vector the child process of a stage receives, after
the quote stripping pass of `execute_command`. -/
def execArgs (c : Command) : List (List Char) := c.args.map stripQuotes

/-! ## Line Editor (src/main.c lines 98-214)

The editor state of `read_line`: the 1024-byte buffer `line`, its logical
length `len`, the cursor `pos`, the draft snapshot buffer `saved_line` and
the history browse counter `history_index`.  Buffers are `List Char` of
length `MAX_CMD_LEN`; the byte stores and `memmove`/`strncpy` calls of the C
code are translated into `List.take`/`List.drop` surgery at the same
offsets. -/

structure EdState where
  buf : List Char
  len : Nat
  pos : Nat
  saved : List Char
  hIdx : Nat
deriving DecidableEq, Repr

/-- Writing one byte at offset `i` of a buffer. -/
def bufSet (l : List Char) (i : Nat) (c : Char) : List Char :=
  l.take i ++ [c] ++ l.drop (i + 1)

/-- The initial state of `read_line`: `line` is `memset` to zero,
`saved_line` is zero-initialised, `len = pos = history_index = 0`. -/
def initEd : EdState :=
  { buf := List.replicate MAX_CMD_LEN NUL, len := 0, pos := 0,
    saved := List.replicate MAX_CMD_LEN NUL, hIdx := 0 }

/-- C `isprint` in the default locale: the printable ASCII range. -/
def isprintC (c : Char) : Bool := 32 ≤ c.toNat && c.toNat ≤ 126

/-- Printable character insertion, src/main.c lines 192-204: only when
`len < MAX_CMD_LEN - 1`, `memmove(&line[pos+1], &line[pos], len-pos+1)`
shifts the tail (terminator included) right, the byte is stored at `pos`,
`len` and `pos` advance, and the terminator is rewritten at the new `len`.
At capacity the keystroke is dropped. -/
def insertChar (c : Char) (s : EdState) : EdState :=
  if s.len < MAX_CMD_LEN - 1 then
    { s with
      buf := bufSet (bufSet
          (s.buf.take (s.pos + 1) ++ (s.buf.drop s.pos).take (s.len - s.pos + 1) ++
            s.buf.drop (s.pos + 1 + (s.len - s.pos + 1)))
          s.pos c)
        (s.len + 1) NUL,
      len := s.len + 1, pos := s.pos + 1 }
  else s

/-- Backspace/Delete, src/main.c lines 181-191: when `pos > 0 ∧ len > 0`,
`memmove(&line[pos-1], &line[pos], len-pos+1)` shifts the tail left, `len`
and `pos` retreat, and the terminator is rewritten at the new `len`. -/
def backspace (s : EdState) : EdState :=
  if 0 < s.pos ∧ 0 < s.len then
    { s with
      buf := bufSet
          (s.buf.take (s.pos - 1) ++ (s.buf.drop s.pos).take (s.len - s.pos + 1) ++
            s.buf.drop (s.pos - 1 + (s.len - s.pos + 1)))
        (s.len - 1) NUL,
      len := s.len - 1, pos := s.pos - 1 }
  else s

/-- Right arrow, src/main.c lines 165-171. -/
def moveRight (s : EdState) : EdState :=
  if s.pos < s.len then { s with pos := s.pos + 1 } else s

/-- Left arrow, src/main.c lines 172-178. -/
def moveLeft (s : EdState) : EdState :=
  if 0 < s.pos then { s with pos := s.pos - 1 } else s

/-- The history slot index the Up handler reads after incrementing the
browse counter: `idx = history_count - history_index` (the `if (idx < 0)
idx = 0;` clamp is subsumed by truncated `Nat` subtraction). -/
def upAccessIdx (count hIdx : Nat) : Nat := count - (hIdx + 1)

/-- Loading a stored history line into the editor buffer:
`strncpy(line, history[idx], MAX_CMD_LEN)` on the NUL-terminated stored
copy, then `len = strlen(line); pos = len;`.  An out-of-bounds slot (the
situation claimed impossible) is modelled as an unspecified fixed value via
`Option.getD`. -/
def loadEntry (e : List Char) (s : EdState) (hIdx2 : Nat) : EdState :=
  { s with buf := strncpyList (e ++ [NUL]) MAX_CMD_LEN,
           len := strlen (strncpyList (e ++ [NUL]) MAX_CMD_LEN),
           pos := strlen (strncpyList (e ++ [NUL]) MAX_CMD_LEN),
           hIdx := hIdx2 }

/-- Up arrow, src/main.c lines 126-143: only when
`history_index < history_count`; on first Up the buffer is snapshotted into
`saved_line`; the counter is incremented and the entry at
`history_count - history_index` is loaded when that index passes the
`idx < history_count` guard. -/
def handleUp (hist : HistState) (s : EdState) : EdState :=
  if s.hIdx < hist.count then
    if upAccessIdx hist.count s.hIdx < hist.count then
      loadEntry ((hist.entries.get? (upAccessIdx hist.count s.hIdx)).getD [])
        { s with saved := if s.hIdx = 0 then strncpyList s.buf MAX_CMD_LEN else s.saved }
        (s.hIdx + 1)
    else
      { s with saved := if s.hIdx = 0 then strncpyList s.buf MAX_CMD_LEN else s.saved,
               hIdx := s.hIdx + 1 }
  else s

/-- Down arrow, src/main.c lines 144-164: only when `history_index > 0`;
the counter is decremented; at zero the draft snapshot is copied back
(`strncpy(line, saved_line, MAX_CMD_LEN)`), otherwise the entry at the
recomputed offset is loaded under the same bounds guard. -/
def handleDown (hist : HistState) (s : EdState) : EdState :=
  if 0 < s.hIdx then
    if s.hIdx - 1 = 0 then
      { s with buf := strncpyList s.saved MAX_CMD_LEN,
               len := strlen (strncpyList s.saved MAX_CMD_LEN),
               pos := strlen (strncpyList s.saved MAX_CMD_LEN),
               hIdx := s.hIdx - 1 }
    else
      if hist.count - (s.hIdx - 1) < hist.count then
        loadEntry ((hist.entries.get? (hist.count - (s.hIdx - 1))).getD []) s (s.hIdx - 1)
      else { s with hIdx := s.hIdx - 1 }
  else s

/-- How the read loop left, src/main.c lines 109-205: a newline byte, end of
input on the first read of an iteration, or end of input in the middle of an
escape sequence. -/
inductive ExitReason where
  | newline : ExitReason
  | eof : ExitReason
  | escEof : ExitReason
deriving DecidableEq, Repr

/-- The read loop of `read_line`, src/main.c lines 109-205, consuming the
raw terminal byte stream: a failed `read` zeroes `len` and breaks; `'\n'`
breaks; ESC reads two continuation bytes (breaking if either read fails)
and dispatches `[A`/`[B`/`[C`/`[D` to the history/cursor handlers; bytes
127 and 8 backspace; printable bytes insert; everything else is ignored. -/
def readLoop (hist : HistState) : List Char → EdState → EdState × ExitReason
  | [], s => ({ s with len := 0 }, ExitReason.eof)
  | c :: input, s =>
    if c = '\n' then (s, ExitReason.newline)
    else if c = Char.ofNat 27 then
      match input with
      | [] => (s, ExitReason.escEof)
      | [_] => (s, ExitReason.escEof)
      | a :: b :: input2 =>
        let s2 :=
          if a = '[' then
            if b = 'A' then handleUp hist s
            else if b = 'B' then handleDown hist s
            else if b = 'C' then moveRight s
            else if b = 'D' then moveLeft s
            else s
          else s
        readLoop hist input2 s2
    else if c.toNat = 127 ∨ c.toNat = 8 then readLoop hist input (backspace s)
    else if isprintC c then readLoop hist input (insertChar c s)
    else readLoop hist input s

/-- Terminal attributes (`struct termios`): the two local-mode bits
`read_line` manipulates, plus an opaque remainder. -/
structure Termios where
  icanon : Bool
  echo : Bool
  rest : Nat
deriving DecidableEq, Repr

/-- Function `enableRawMode`, src/main.c lines 36-41: the attributes with
`ICANON` and `ECHO` cleared. -/
def rawMode (t : Termios) : Termios := { t with icanon := false, echo := false }

/-- What `read_line` returns and the state it leaves behind: the
`strdup`-ed line (bytes up to the terminator), the terminal attributes in
force after the call, how many times the saved attributes were restored
(`disableRawMode` calls, src/main.c lines 32-34 and 207), the updated
history store, and the exit path of the loop. -/
structure ReadLineResult where
  line : List Char
  term : Termios
  restores : Nat
  hist : HistState
  reason : ExitReason
deriving DecidableEq, Repr

/-- Function `read_line` from src/main.c lines 98-214: `enableRawMode()` saves the
attributes in `orig_termios` and switches to raw mode; the loop runs to one
of its exits; control falls to the single `disableRawMode()` call which
restores the saved attributes; a non-empty line is recorded in history. -/
def read_line (t : Termios) (hist : HistState) (input : List Char) : ReadLineResult :=
  let origTermios := t
  let sr := readLoop hist input initEd
  let afterLoop : Termios := origTermios
  let hist2 := if 0 < sr.1.len then
      add_to_history (sr.1.buf.takeWhile (fun c => c ≠ NUL)) hist
    else hist
  { line := sr.1.buf.takeWhile (fun c => c ≠ NUL), term := afterLoop, restores := 1,
    hist := hist2, reason := sr.2 }

/-- Well-formedness of the stored history entries as C strings that fit the
editor buffer: each stored line has no interior NUL byte and at most
`MAX_CMD_LEN - 1` characters (both hold for every line produced by
`read_line`). -/
def HistWF (h : HistState) : Prop :=
  ∀ e ∈ h.entries, e.length ≤ MAX_CMD_LEN - 1 ∧ NUL ∉ e

instance (h : HistState) : Decidable (HistWF h) := by
  unfold HistWF
  exact List.decidableBAll _ _

/-- The editor-state invariant: the buffer is the full `MAX_CMD_LEN`-byte
array, NUL-terminated exactly at `len` (no NUL among the first `len` bytes,
NUL from position `len` on), with `pos ≤ len ≤ MAX_CMD_LEN - 1`; the draft
snapshot buffer is likewise a NUL-padded C string shorter than the
buffer. -/
def EdInv (s : EdState) : Prop :=
  s.buf.length = MAX_CMD_LEN ∧ s.len ≤ MAX_CMD_LEN - 1 ∧ s.pos ≤ s.len ∧
  strlen s.buf = s.len ∧ padded s.buf ∧
  s.saved.length = MAX_CMD_LEN ∧ strlen s.saved ≤ MAX_CMD_LEN - 1 ∧ padded s.saved

instance (s : EdState) : Decidable (EdInv s) := by
  unfold EdInv
  infer_instance

/-! ## Pipeline Executor (src/main.c lines 299-401)

Two aspects of `execute_pipeline` are embedded.

The *wait/reap phase* (lines 394-400) works on the process
state of the parent shell: the set of not-yet-reaped child pids and the `foreground_mode` flag.
Spawning a stage forks a child; `waitpid(-1, ..., 0)` in a loop reaps every
outstanding child of the process, whichever pipeline spawned it.

The *descriptor wiring* of each child (lines 319-348 of `execute_command`
together with the fd arguments computed in lines 372-392) is embedded as
the final provenance of the standard input and output of the child after the
`dup2` sequence runs in program order. -/

structure ShellState where
  outstanding : List Nat
  foreground : Bool
  nextPid : Nat
deriving DecidableEq, Repr

/-- One `fork()` of a stage as seen by the parent: a fresh pid joins the
outstanding children. -/
def spawnStage (st : ShellState) : ShellState :=
  { st with outstanding := st.outstanding ++ [st.nextPid], nextPid := st.nextPid + 1 }

/-- Effect of `execute_pipeline` on the process state of the parent, src/main.c
lines 372-401: one fork per stage, then — depending solely on the **last**
background flag of the last stage — either `while (waitpid(-1, &status, 0) > 0);`
(which empties the whole outstanding set) and `foreground_mode = 1`, or an
immediate return with `foreground_mode = 0`. -/
def execute_pipeline (p : List Command) (st : ShellState) : ShellState :=
  let st1 := p.foldl (fun a _ => spawnStage a) st
  if (p.getLastD initCmd).background then { st1 with foreground := false }
  else { st1 with outstanding := [], foreground := true }

/-- Where a standard descriptor of a child ends up pointing. -/
inductive FdSrc where
  | inherited : FdSrc
  | fromFile : List Char → FdSrc
  | fromFd : Nat → FdSrc
deriving DecidableEq, Repr

/-- Final provenance of the standard input of a child, `execute_command`
src/main.c lines 319-327 and 340-343 in program order: first a declared
input file is `dup2`-ed onto fd 0, then — if the stage was handed a pipe
read end (`input_fd != STDIN_FILENO`) — that descriptor overrides fd 0. -/
def childStdin (cmd : Command) (input_fd : Nat) : FdSrc :=
  let afterFile := match cmd.input_file with
    | some f => FdSrc.fromFile f
    | none => FdSrc.inherited
  if input_fd ≠ 0 then FdSrc.fromFd input_fd else afterFile

/-- Final provenance of the standard output of a child, `execute_command`
src/main.c lines 329-338 and 345-348 in program order: a declared output
file is `dup2`-ed onto fd 1, then an `output_fd != STDOUT_FILENO` (the next
write end of the next pipe) overrides it. -/
def childStdout (cmd : Command) (output_fd : Nat) : FdSrc :=
  let afterFile := match cmd.output_file with
    | some f => FdSrc.fromFile f
    | none => FdSrc.inherited
  if output_fd ≠ 1 then FdSrc.fromFd output_fd else afterFile

/-- The descriptor `execute_pipeline` hands stage `i` as its input,
src/main.c lines 374, 384, 391: `STDIN_FILENO` for the first stage, the
read end of pipe `i-1` afterwards. -/
def stageInputFd (pipeFds : Nat → Nat × Nat) (i : Nat) : Nat :=
  if i = 0 then 0 else (pipeFds (i - 1)).1

/-- The descriptor `execute_pipeline` hands stage `i` as its output,
src/main.c line 385: `STDOUT_FILENO` for the last stage, the write end of
pipe `i` otherwise. -/
def stageOutputFd (pipeFds : Nat → Nat × Nat) (n i : Nat) : Nat :=
  if i = n - 1 then 1 else (pipeFds i).2

/-- The final stdin/stdout provenance of the child spawned for stage `i` of
the pipeline, with `pipeFds j` the `(read, write)` descriptor pair `pipe()`
returned for the j-th interior boundary. -/
def stageWiring (pipeFds : Nat → Nat × Nat) (p : List Command) (i : Nat) : FdSrc × FdSrc :=
  (childStdin (p.getD i initCmd) (stageInputFd pipeFds i),
   childStdout (p.getD i initCmd) (stageOutputFd pipeFds p.length i))

/-! ## Claims -/

set_option maxRecDepth 8000

/-- Claim C1 (code_bug evidence): after submitting 101 distinct non-empty
lines, the store does retain exactly the most recent 100 in submission
order, but `show_history` does not list them with display index 1 on the
oldest retained line: the first line printed carries index 2 and is the
*second*-oldest retained entry, and the oldest retained entry is printed
last with index 101. -/
theorem c1_history_listing_bug :
    (submitAll lines101).entries = lines101.drop 1 ∧
    (submitAll lines101).count = 101 ∧
    (show_history (submitAll lines101)).length = 100 ∧
    (show_history (submitAll lines101)).head? = some (2, [Char.ofNat 35]) ∧
    (show_history (submitAll lines101)).getLast? = some (101, [Char.ofNat 34]) := by
  refine ⟨by decide, by decide, by decide, by decide, by decide⟩

/-- Claim C2 (code_bug evidence): `parse_pipeline` does construct a Stage
with zero argument tokens.  The line `> out.txt` yields one stage whose
argument vector is empty (`args[0] == NULL`) with the output redirection
set, and the line consisting of a single tab character (which segment
trimming does not remove) yields one stage that is entirely empty. -/
theorem c2_zero_arg_stage :
    parse_pipeline "> out.txt".data =
      [{ args := [], input_file := none, output_file := some "out.txt".data,
         append := false, background := false }] ∧
    parse_pipeline "\t".data = [initCmd] := by
  constructor
  · simp only [String.data]
    simp [parse_pipeline, parsePipeGo, parseStage, argWalk, strtok, trimSpaces,
      isWs, initCmd, MAX_PIPES, MAX_ARGS]
  · simp only [String.data]
    simp [parse_pipeline, parsePipeGo, parseStage, argWalk, strtok, trimSpaces,
      isWs, initCmd, MAX_PIPES, MAX_ARGS]

/-- Claim C9 (code_bug evidence): after 101 non-empty submissions the Up
index `history_count - history_index` of the Up handler is 100, which passes the
own `idx < history_count` guard of the code yet lies outside
`[0, min(history_count, MAX_HISTORY)) = [0, 100)`: the slot read by
`history[idx]` does not exist (`get?` is `none`). -/
theorem c9_recall_oob :
    (submitAll lines101).count = 101 ∧
    (submitAll lines101).entries.length = 100 ∧
    upAccessIdx (submitAll lines101).count initEd.hIdx = 100 ∧
    upAccessIdx (submitAll lines101).count initEd.hIdx < (submitAll lines101).count ∧
    (submitAll lines101).entries.get? (upAccessIdx (submitAll lines101).count initEd.hIdx)
      = none ∧
    ¬ upAccessIdx (submitAll lines101).count initEd.hIdx <
        min (submitAll lines101).count MAX_HISTORY := by
  refine ⟨by decide, by decide, by decide, by decide, by decide, by decide⟩

theorem foldl_spawn_eq_iterate (l : List Command) (st : ShellState) :
    l.foldl (fun a _ => spawnStage a) st = spawnStage^[l.length] st := by
  induction l generalizing st with
  | nil => simp
  | cons c l ih =>
    simp only [List.foldl_cons, List.length_cons, ih (spawnStage st)]
    rw [Function.iterate_succ_apply]

theorem outstanding_prefix_foldl_spawn (l : List Command) (st : ShellState) :
    st.outstanding <+: (l.foldl (fun a _ => spawnStage a) st).outstanding := by
  induction l generalizing st with
  | nil => simp
  | cons c l ih =>
    simp only [List.foldl_cons]
    exact List.IsPrefix.trans ⟨[st.nextPid], rfl⟩ (ih (spawnStage st))

theorem getLastD_set_of_lt {α : Type} (l : List α) (i : Nat) (c d : α)
    (h : i < l.length - 1) : (l.set i c).getLastD d = l.getLastD d := by
  induction l generalizing i d with
  | nil => simp
  | cons a l ih =>
    cases i with
    | zero =>
      cases l with
      | nil => simp at h
      | cons b l => simp [List.getLastD_cons]
    | succ i =>
      cases l with
      | nil => simp at h
      | cons b l =>
        have h2 : i < (b :: l).length - 1 := by
          simp only [List.length_cons] at h ⊢
          omega
        simp only [List.set_cons_succ]
        rw [List.getLastD_cons, List.getLastD_cons]
        exact ih i a h2

/-- Claim C3 (confirmed): the wait decision of the Executor depends only on
the background flag of the last stage.  Unset: every currently outstanding child —
whichever pipeline spawned it — is reaped (the outstanding set becomes
empty) and the foreground flag is set.  Set: nothing is waited for (the
previously outstanding children are still there, as a prefix of the new
outstanding set) and the foreground flag is cleared.  Replacing any stage
other than the last by an arbitrary command leaves the effect of the executor
unchanged, so a background flag on an earlier stage has no influence. -/
theorem c3_wait_only_last_background (p : List Command) (hp : p ≠ [])
    (hk : 1 ≤ p.length ∧ p.length ≤ MAX_PIPES) (st : ShellState) :
    ((p.getLast hp).background = false →
      (execute_pipeline p st).outstanding = [] ∧
      (execute_pipeline p st).foreground = true) ∧
    ((p.getLast hp).background = true →
      st.outstanding <+: (execute_pipeline p st).outstanding ∧
      (execute_pipeline p st).foreground = false) ∧
    (∀ i c, i < p.length - 1 → execute_pipeline (p.set i c) st = execute_pipeline p st) := by
  have hlast : p.getLastD initCmd = p.getLast hp := by
    rw [List.getLastD_eq_getLast?, List.getLast?_eq_getLast p hp]
    rfl
  refine ⟨?_, ?_, ?_⟩
  · intro hbg
    unfold execute_pipeline
    rw [hlast, hbg]
    simp
  · intro hbg
    unfold execute_pipeline
    rw [hlast, hbg]
    simp only [if_true]
    exact ⟨outstanding_prefix_foldl_spawn p st, trivial⟩
  · intro i c hi
    unfold execute_pipeline
    rw [getLastD_set_of_lt p i c initCmd hi,
      foldl_spawn_eq_iterate, foldl_spawn_eq_iterate, List.length_set]

/-- Witness for C3 at a concrete pipeline: a two-stage pipeline whose first
stage carries the background flag but whose last stage does not is waited
for: the outstanding set is drained and the shell is in foreground mode. -/
theorem c3_wait_only_last_background_witness :
    (execute_pipeline
        [{ initCmd with background := true }, { initCmd with args := [['w', 'c']] }]
        ⟨[5], false, 7⟩).outstanding = [] ∧
    (execute_pipeline
        [{ initCmd with background := true }, { initCmd with args := [['w', 'c']] }]
        ⟨[5], false, 7⟩).foreground = true := by
  exact (c3_wait_only_last_background
    [{ initCmd with background := true }, { initCmd with args := [['w', 'c']] }]
    (by decide) ⟨by decide, by decide⟩ ⟨[5], false, 7⟩).1 (by decide)

/-- Claim C4 (confirmed): in the final descriptor wiring of the child, pipe
linkage wins over file redirection at interior boundaries.  For any stage
`i` of the pipeline (given that `pipe()` returns descriptors ≥ 3, as 0, 1
and 2 are open in the shell): the standard input of a non-first stage is
the read end of the previous pipe no matter what input redirection it
declares; the standard input of the first stage honours its declared input
file.  The standard output of a non-last stage is the write end of its
pipe no matter what output redirection it declares; the standard output of
the last stage honours its
declared output file. -/
theorem c4_wiring_precedence (pipeFds : Nat → Nat × Nat)
    (hfds : ∀ j, 3 ≤ (pipeFds j).1 ∧ 3 ≤ (pipeFds j).2)
    (p : List Command) (i : Nat) (hi : i < p.length) :
    (0 < i → (stageWiring pipeFds p i).1 = FdSrc.fromFd (pipeFds (i - 1)).1) ∧
    (i = 0 → (stageWiring pipeFds p i).1 =
      (match (p.getD i initCmd).input_file with
       | some f => FdSrc.fromFile f
       | none => FdSrc.inherited)) ∧
    (i < p.length - 1 → (stageWiring pipeFds p i).2 = FdSrc.fromFd (pipeFds i).2) ∧
    (i = p.length - 1 → (stageWiring pipeFds p i).2 =
      (match (p.getD i initCmd).output_file with
       | some f => FdSrc.fromFile f
       | none => FdSrc.inherited)) := by
  refine ⟨?_, ?_, ?_, ?_⟩
  · intro hpos
    have hne : i ≠ 0 := Nat.pos_iff_ne_zero.mp hpos
    have h3 : 3 ≤ (pipeFds (i - 1)).1 := (hfds (i - 1)).1
    simp only [stageWiring, childStdin, stageInputFd, hne, if_false]
    have : (pipeFds (i - 1)).1 ≠ 0 := by omega
    simp [this]
  · intro h0
    subst h0
    simp [stageWiring, childStdin, stageInputFd]
  · intro hlt
    have hne : i ≠ p.length - 1 := by omega
    have h3 : 3 ≤ (pipeFds i).2 := (hfds i).2
    simp only [stageWiring, childStdout, stageOutputFd, hne, if_false]
    have : (pipeFds i).2 ≠ 1 := by omega
    simp [this]
  · intro hlast
    simp [stageWiring, childStdout, stageOutputFd, hlast]

/-- A concrete descriptor allocation and two-stage pipeline exercising C4:
both stages request both redirections. -/
def demoPipeFds : Nat → Nat × Nat := fun j => (3 + 2 * j, 4 + 2 * j)

def demoPipe : List Command :=
  [{ initCmd with input_file := some ['a'], output_file := some ['b'] },
   { initCmd with input_file := some ['c'], output_file := some ['d'] }]

/-- Witness for C4: in the concrete two-stage pipeline, stage 0 reads its
input file and writes the pipe, stage 1 reads the pipe (its declared input
file is overridden) and writes its output file. -/
theorem c4_wiring_precedence_witness :
    (stageWiring demoPipeFds demoPipe 0).1 = FdSrc.fromFile ['a'] ∧
    (stageWiring demoPipeFds demoPipe 0).2 = FdSrc.fromFd 4 ∧
    (stageWiring demoPipeFds demoPipe 1).1 = FdSrc.fromFd 3 ∧
    (stageWiring demoPipeFds demoPipe 1).2 = FdSrc.fromFile ['d'] := by
  have hfds : ∀ j, 3 ≤ (demoPipeFds j).1 ∧ 3 ≤ (demoPipeFds j).2 := by
    intro j
    constructor <;> simp [demoPipeFds] <;> omega
  have h0 := c4_wiring_precedence demoPipeFds hfds demoPipe 0 (by decide)
  have h1 := c4_wiring_precedence demoPipeFds hfds demoPipe 1 (by decide)
  refine ⟨?_, ?_, ?_, ?_⟩
  · rw [h0.2.1 rfl]
    rfl
  · rw [h0.2.2.1 (by decide)]
    rfl
  · rw [h1.1 (by decide)]
    rfl
  · rw [h1.2.2.2 (by decide)]
    rfl

/-- Claim C5 (confirmed): for every prior terminal state, history store and
raw input stream — whichever exit path the read loop takes (newline,
end-of-input before any byte, or a failed read in the middle of an escape
sequence) — `read_line` performs the terminal restoration exactly once,
and the terminal attributes observed after `read_line` equal the attributes
saved before the raw-mode switch. -/
theorem c5_terminal_restored_once (t : Termios) (hist : HistState) (input : List Char) :
    (read_line t hist input).term = t ∧ (read_line t hist input).restores = 1 :=
  ⟨rfl, rfl⟩

/-- Claim C6 counterexample: in the segment `cat > f >` the redirection
operator `>` is the last token and no filename follows it, yet the parsed
output-file field of the parsed stage is *set* (to `f`): the earlier `> f` consumed its
filename and broke out of the walk, so the field does not "remain unset"
as claimed. -/
theorem c6_counterexample :
    (parse_pipeline "cat > f >".data).map (fun c => c.output_file) = [some ['f']] := by
  simp only [String.data]
  simp [parse_pipeline, parsePipeGo, parseStage, argWalk, strtok, trimSpaces,
    isWs, initCmd, MAX_PIPES, MAX_ARGS]

/-- Claim C6 (corrected): whenever the argument walk *reaches* a
redirection operator (`<`, `>` or `>>`) with no token remaining after it in
the segment, parsing raises no error and the stage is returned exactly as
already built — in particular the corresponding input-file or output-file
field, if unset, remains unset.  (The original universally-quantified
claim fails when an earlier redirection operator of the same stream was
already consumed, as `c6_counterexample` shows.) -/
theorem c6_trailing_redirection_no_effect (st : Command) (buf : List Char)
    (op : List Char) (hop : op = ['<'] ∨ op = ['>'] ∨ op = ['>', '>'])
    (hbuf : strtok isWs buf = none) :
    argWalk op buf st = st := by
  rcases hop with h | h | h <;> subst h <;>
    rw [argWalk.eq_def] <;> simp [hbuf]

/-- Witness for C6: a trailing `<` with only a blank behind it leaves the
fresh stage untouched. -/
theorem c6_trailing_redirection_witness : argWalk ['<'] [' '] initCmd = initCmd :=
  c6_trailing_redirection_no_effect initCmd [' '] ['<'] (Or.inl rfl) (by decide)

/-- Claim C7 counterexample: in the line `echo "a b"` the token `"a` begins
with a quote character (its matching closing quote lies in the following
token), yet the parsed stage does not receive the quoted content as one
quote-stripped argument: it receives the two arguments `"a` and `b"`, both
retaining their quote characters — and the stripping
pass of `execute_command` itself leaves them unchanged as well. -/
theorem c7_counterexample :
    (parse_pipeline "echo \"a b\"".data).map (fun c => c.args)
      = [[['e', 'c', 'h', 'o'], ['"', 'a'], ['b', '"']]] ∧
    (parse_pipeline "echo \"a b\"".data).map execArgs
      = [[['e', 'c', 'h', 'o'], ['"', 'a'], ['b', '"']]] := by
  constructor <;>
    (simp only [String.data]
     simp [parse_pipeline, parsePipeGo, parseStage, argWalk, strtok, trimSpaces,
       isWs, initCmd, execArgs, stripQuotes, MAX_PIPES, MAX_ARGS])

/-- Claim C7 (corrected): for every token that begins with a quote
character *and contains the matching closing quote later within the same
whitespace-delimited token*, the walk appends the content between the
quotes as exactly one positional argument with the quote characters
stripped, and continues with the remainder of the token after the closing
quote.  (The original claim, quantifying over every quote-opening token,
fails when the closing quote lies beyond the token, as `c7_counterexample`
shows.) -/
theorem c7_quoted_token_one_arg (st : Command) (content rest buf : List Char)
    (hlen : st.args.length < MAX_ARGS - 1) (hc : '"' ∉ content) :
    argWalk ('"' :: (content ++ '"' :: rest)) buf st
      = argWalk rest buf { st with args := st.args ++ [content] } := by
  have hA : ¬('"' :: (content ++ '"' :: rest) = ['>'] ∨
      '"' :: (content ++ '"' :: rest) = ['>', '>']) := by
    rintro (h | h) <;> (injection h with hh _; exact absurd hh (by decide))
  have hB : ¬ '"' :: (content ++ '"' :: rest) = ['<'] := by
    intro h; injection h with hh _; exact absurd hh (by decide)
  have hC : ¬ '"' :: (content ++ '"' :: rest) = ['&'] := by
    intro h; injection h with hh _; exact absurd hh (by decide)
  have hQ : ('"' :: (content ++ '"' :: rest)).head? = some '"' ∧
      '"' ∈ ('"' :: (content ++ '"' :: rest)).tail := by
    refine ⟨rfl, ?_⟩
    simp
  have ht : (content ++ '"' :: rest).takeWhile (fun c => c ≠ '"') = content := by
    rw [List.takeWhile_append_of_pos]
    · rw [List.takeWhile_cons_of_neg]
      · simp
      · simp
    · intro a ha
      simp only [ne_eq, decide_eq_true_eq]
      intro hq2
      exact hc (hq2 ▸ ha)
  rw [argWalk.eq_def]
  simp only [hlen, if_true, hA, if_false, hB, hC, hQ, dif_pos, List.tail_cons, ht]
  rw [List.drop_left, List.tail_cons]
  have hm : '"' ∈ content ++ '"' :: rest := by simp
  rw [dif_pos ⟨trivial, hm⟩]

/-- Witness for C7: the token `"a"` (quote, content `a`, closing quote) at
the start of a fresh stage yields the single stripped argument `a`. -/
theorem c7_quoted_token_witness :
    initCmd.args.length < MAX_ARGS - 1 ∧ '"' ∉ (['a'] : List Char) ∧
    argWalk ('"' :: (['a'] ++ '"' :: [])) [] initCmd
      = argWalk [] [] { initCmd with args := initCmd.args ++ [['a']] } :=
  ⟨by decide, by decide,
    c7_quoted_token_one_arg initCmd ['a'] [] [] (by decide) (by decide)⟩

theorem takeWhile_replicate_nul (n : Nat) :
    (List.replicate n NUL).takeWhile (fun c => c ≠ NUL) = [] := by
  cases n with
  | zero => rfl
  | succ n =>
    rw [List.replicate_succ, List.takeWhile_cons_of_neg]
    simp

theorem strlen_append_replicate (C : List Char) (hC : NUL ∉ C) (n : Nat) :
    strlen (C ++ List.replicate n NUL) = C.length := by
  unfold strlen
  rw [List.takeWhile_append_of_pos, takeWhile_replicate_nul, List.append_nil]
  intro a ha
  simp only [ne_eq, decide_eq_true_eq]
  intro h
  exact hC (h ▸ ha)

theorem padded_append_replicate (C : List Char) (hC : NUL ∉ C) (n : Nat) :
    padded (C ++ List.replicate n NUL) := by
  unfold padded
  rw [strlen_append_replicate C hC n, List.drop_left, List.length_append,
    List.length_replicate]
  congr 1
  omega

theorem edinv_normal {s : EdState} (h : EdInv s) :
    s.buf = s.buf.take s.len ++ List.replicate (MAX_CMD_LEN - s.len) NUL ∧
    NUL ∉ s.buf.take s.len ∧ (s.buf.take s.len).length = s.len := by
  obtain ⟨hblen, hlen1023, hpos, hstr, hpad, _, _, _⟩ := h
  have htw : s.buf.takeWhile (fun c => c ≠ NUL) = s.buf.take s.len := by
    have hpre := List.takeWhile_prefix (l := s.buf) (fun c => c ≠ NUL)
    rw [List.prefix_iff_eq_take] at hpre
    rw [hpre]
    congr 1
  refine ⟨?_, ?_, ?_⟩
  · conv_lhs => rw [← List.take_append_drop s.len s.buf]
    congr 1
    have hd : s.buf.drop (strlen s.buf)
        = List.replicate (s.buf.length - strlen s.buf) NUL := hpad
    rw [hstr, hblen] at hd
    exact hd
  · intro hmem
    rw [← htw] at hmem
    have := List.mem_takeWhile_imp hmem
    simp at this
  · rw [List.length_take, hblen]
    unfold MAX_CMD_LEN at *
    omega

theorem strncpyList_self (l : List Char) (hlen : l.length = MAX_CMD_LEN)
    (hstr : strlen l ≤ MAX_CMD_LEN - 1) (hpad : padded l) :
    strncpyList l MAX_CMD_LEN = l := by
  unfold strncpyList
  have hmin : min (strlen l) MAX_CMD_LEN = strlen l := by
    unfold MAX_CMD_LEN at *
    omega
  rw [hmin]
  conv_rhs => rw [← List.take_append_drop (strlen l) l]
  congr 1
  rw [hpad, hlen]

theorem strncpyList_entry (e : List Char) (he : NUL ∉ e)
    (hlen : e.length ≤ MAX_CMD_LEN - 1) :
    strncpyList (e ++ [NUL]) MAX_CMD_LEN
      = e ++ List.replicate (MAX_CMD_LEN - e.length) NUL := by
  have h1 : strlen (e ++ [NUL]) = e.length := by
    have h := strlen_append_replicate e he 1
    simpa using h
  unfold strncpyList
  rw [h1]
  have hmin : min e.length MAX_CMD_LEN = e.length := by
    unfold MAX_CMD_LEN at *
    omega
  rw [hmin, List.take_left' (Eq.refl e.length)]

theorem bufSet_at_prefix_end (A B : List Char) (i : Nat) (c : Char)
    (hA : A.length = i) :
    bufSet (A ++ B) i c = A ++ [c] ++ B.drop 1 := by
  unfold bufSet
  rw [List.take_left' hA, List.drop_append_eq_append_drop,
    List.drop_eq_nil_of_le (by omega), List.nil_append]
  have h1 : i + 1 - A.length = 1 := by omega
  rw [h1]

theorem insert_buf_shape (C : List Char) (m p len : Nat) (c : Char)
    (hC : C.length = len) (hp : p ≤ len) (hm : 2 ≤ m) :
    bufSet (bufSet
        ((C ++ List.replicate m NUL).take (p + 1) ++
          ((C ++ List.replicate m NUL).drop p).take (len - p + 1) ++
          (C ++ List.replicate m NUL).drop (p + 1 + (len - p + 1)))
        p c)
      (len + 1) NUL
    = (C.take p ++ [c] ++ C.drop p) ++ List.replicate (m - 1) NUL := by
  subst hC
  have hdrop : (C ++ List.replicate m NUL).drop p = C.drop p ++ List.replicate m NUL := by
    rw [List.drop_append_eq_append_drop, Nat.sub_eq_zero_of_le hp, List.drop_zero]
  have hT2 : (C.drop p ++ List.replicate m NUL).take (C.length - p + 1)
      = C.drop p ++ [NUL] := by
    rw [List.take_append_eq_append_take,
      List.take_all_of_le (by rw [List.length_drop]; omega)]
    have h2 : C.length - p + 1 - (C.drop p).length = 1 := by
      rw [List.length_drop]
      omega
    rw [h2, List.take_replicate]
    have h3 : min 1 m = 1 := by omega
    rw [h3, List.replicate_one]
  have hT3 : (C ++ List.replicate m NUL).drop (p + 1 + (C.length - p + 1))
      = List.replicate (m - 2) NUL := by
    have h4 : p + 1 + (C.length - p + 1) = C.length + 2 := by omega
    rw [h4, List.drop_append_eq_append_drop, List.drop_eq_nil_of_le (by omega),
      List.nil_append]
    have h5 : C.length + 2 - C.length = 2 := by omega
    rw [h5, List.drop_replicate]
  rw [hdrop, hT2, hT3]
  have hT1split : (C ++ List.replicate m NUL).take (p + 1)
      = C.take p ++ [(C ++ List.replicate m NUL).getD p NUL] := by
    have hlt : p < (C ++ List.replicate m NUL).length := by
      rw [List.length_append, List.length_replicate]
      omega
    rw [← List.take_concat_get _ _ hlt, List.concat_eq_append]
    congr 1
    · rw [List.take_append_eq_append_take, Nat.sub_eq_zero_of_le hp,
        List.take_zero, List.append_nil]
    · rw [List.getD_eq_getElem _ _ hlt]
  rw [hT1split]
  have hassoc : (C.take p ++ [(C ++ List.replicate m NUL).getD p NUL]) ++
        (C.drop p ++ [NUL]) ++ List.replicate (m - 2) NUL
      = C.take p ++ ([(C ++ List.replicate m NUL).getD p NUL] ++
          ((C.drop p ++ [NUL]) ++ List.replicate (m - 2) NUL)) := by
    simp [List.append_assoc]
  rw [hassoc, bufSet_at_prefix_end _ _ p c (by rw [List.length_take]; omega)]
  have hdrop1 : ([(C ++ List.replicate m NUL).getD p NUL] ++
        ((C.drop p ++ [NUL]) ++ List.replicate (m - 2) NUL)).drop 1
      = (C.drop p ++ [NUL]) ++ List.replicate (m - 2) NUL := by
    rw [List.drop_append_eq_append_drop]
    simp
  rw [hdrop1]
  have hassoc2 : C.take p ++ [c] ++ ((C.drop p ++ [NUL]) ++ List.replicate (m - 2) NUL)
      = (C.take p ++ [c] ++ C.drop p) ++
          ([NUL] ++ List.replicate (m - 2) NUL) := by
    simp [List.append_assoc]
  rw [hassoc2, bufSet_at_prefix_end _ _ (C.length + 1) NUL ?hlen]
  case hlen =>
    simp only [List.length_append, List.length_take, List.length_cons,
      List.length_nil, List.length_drop]
    omega
  have hdrop2 : ([NUL] ++ List.replicate (m - 2) NUL).drop 1
      = List.replicate (m - 2) NUL := by
    simp
  rw [hdrop2]
  have hrep : ([NUL] : List Char) ++ List.replicate (m - 2) NUL
      = List.replicate (m - 1) NUL := by
    have h6 : m - 1 = (m - 2) + 1 := by omega
    rw [h6, List.replicate_succ]
    rfl
  simp only [List.append_assoc]
  rw [hrep]

theorem backspace_buf_shape (C : List Char) (m p len : Nat)
    (hC : C.length = len) (hp1 : 1 ≤ p) (hp : p ≤ len) (hm : 1 ≤ m) :
    bufSet
        ((C ++ List.replicate m NUL).take (p - 1) ++
          ((C ++ List.replicate m NUL).drop p).take (len - p + 1) ++
          (C ++ List.replicate m NUL).drop (p - 1 + (len - p + 1)))
      (len - 1) NUL
    = (C.take (p - 1) ++ C.drop p) ++ List.replicate (m + 1) NUL := by
  subst hC
  have hT1 : (C ++ List.replicate m NUL).take (p - 1) = C.take (p - 1) := by
    rw [List.take_append_eq_append_take,
      Nat.sub_eq_zero_of_le (Nat.le_trans (Nat.sub_le p 1) hp),
      List.take_zero, List.append_nil]
  have hdrop : (C ++ List.replicate m NUL).drop p = C.drop p ++ List.replicate m NUL := by
    rw [List.drop_append_eq_append_drop, Nat.sub_eq_zero_of_le hp, List.drop_zero]
  have hT2 : (C.drop p ++ List.replicate m NUL).take (C.length - p + 1)
      = C.drop p ++ [NUL] := by
    rw [List.take_append_eq_append_take,
      List.take_all_of_le (by rw [List.length_drop]; omega)]
    have h2 : C.length - p + 1 - (C.drop p).length = 1 := by
      rw [List.length_drop]
      omega
    rw [h2, List.take_replicate]
    have h3 : min 1 m = 1 := by omega
    rw [h3, List.replicate_one]
  have hT3 : (C ++ List.replicate m NUL).drop (p - 1 + (C.length - p + 1))
      = List.replicate m NUL := by
    have h4 : p - 1 + (C.length - p + 1) = C.length := by omega
    rw [h4, List.drop_left]
  rw [hT1, hdrop, hT2, hT3]
  have hassoc : C.take (p - 1) ++ (C.drop p ++ [NUL]) ++ List.replicate m NUL
      = (C.take (p - 1) ++ C.drop p) ++ ([NUL] ++ List.replicate m NUL) := by
    simp [List.append_assoc]
  rw [hassoc, bufSet_at_prefix_end _ _ (C.length - 1) NUL ?hlen]
  case hlen =>
    simp only [List.length_append, List.length_take, List.length_drop]
    omega
  have hdrop1 : ([NUL] ++ List.replicate m NUL).drop 1 = List.replicate m NUL := by
    simp
  rw [hdrop1]
  have hrep : ([NUL] : List Char) ++ List.replicate m NUL
      = List.replicate (m + 1) NUL := by
    rw [List.replicate_succ]
    rfl
  simp only [List.append_assoc]
  rw [hrep]

theorem isprintC_ne_nul {c : Char} (hc : isprintC c) : c ≠ NUL := by
  intro h
  subst h
  simp [isprintC, NUL] at hc

theorem insertChar_edinv (c : Char) (s : EdState) (hc : isprintC c) (h : EdInv s) :
    EdInv (insertChar c s) := by
  unfold insertChar
  by_cases hg : s.len < MAX_CMD_LEN - 1
  · rw [if_pos hg]
    obtain ⟨hnf, hnuls, hCl⟩ := edinv_normal h
    obtain ⟨hblen, hl1023, hpos, hstr, hpad, hsl, hsstr, hspad⟩ := h
    have hm : 2 ≤ MAX_CMD_LEN - s.len := by
      unfold MAX_CMD_LEN at *
      omega
    have hshape := insert_buf_shape (s.buf.take s.len) (MAX_CMD_LEN - s.len)
      s.pos s.len c hCl hpos hm
    have hnew : NUL ∉ (s.buf.take s.len).take s.pos ++ [c] ++
        (s.buf.take s.len).drop s.pos := by
      intro hmem
      rcases List.mem_append.mp hmem with hmem1 | hmem2
      · rcases List.mem_append.mp hmem1 with hmem3 | hmem4
        · exact hnuls (List.take_subset _ _ hmem3)
        · have : NUL = c := by simpa using hmem4
          exact isprintC_ne_nul hc this.symm
      · exact hnuls (List.drop_subset _ _ hmem2)
    have hnewlen : ((s.buf.take s.len).take s.pos ++ [c] ++
        (s.buf.take s.len).drop s.pos).length = s.len + 1 := by
      simp only [List.length_append, List.length_take, List.length_drop,
        List.length_cons, List.length_nil, hCl]
      omega
    unfold EdInv
    rw [hnf]
    rw [hshape]
    refine ⟨?_, ?_, ?_, ?_, ?_, ?_, ?_, ?_⟩
    · simp only [List.length_append, List.length_replicate, hnewlen]
      unfold MAX_CMD_LEN at *
      omega
    · simp only []
      unfold MAX_CMD_LEN at *
      omega
    · simp only []
      omega
    · simp only []
      rw [strlen_append_replicate _ hnew, hnewlen]
    · exact padded_append_replicate _ hnew _
    · exact hsl
    · exact hsstr
    · exact hspad
  · rw [if_neg hg]
    exact h

theorem backspace_edinv (s : EdState) (h : EdInv s) : EdInv (backspace s) := by
  unfold backspace
  by_cases hg : 0 < s.pos ∧ 0 < s.len
  · rw [if_pos hg]
    obtain ⟨hnf, hnuls, hCl⟩ := edinv_normal h
    obtain ⟨hblen, hl1023, hpos, hstr, hpad, hsl, hsstr, hspad⟩ := h
    have hm : 1 ≤ MAX_CMD_LEN - s.len := by
      unfold MAX_CMD_LEN at *
      omega
    have hshape := backspace_buf_shape (s.buf.take s.len) (MAX_CMD_LEN - s.len)
      s.pos s.len hCl hg.1 hpos hm
    have hnew : NUL ∉ (s.buf.take s.len).take (s.pos - 1) ++
        (s.buf.take s.len).drop s.pos := by
      intro hmem
      rcases List.mem_append.mp hmem with hmem1 | hmem2
      · exact hnuls (List.take_subset _ _ hmem1)
      · exact hnuls (List.drop_subset _ _ hmem2)
    have hnewlen : ((s.buf.take s.len).take (s.pos - 1) ++
        (s.buf.take s.len).drop s.pos).length = s.len - 1 := by
      simp only [List.length_append, List.length_take, List.length_drop, hCl]
      omega
    have hrep : MAX_CMD_LEN - s.len + 1 = MAX_CMD_LEN - (s.len - 1) := by
      unfold MAX_CMD_LEN at *
      omega
    unfold EdInv
    rw [hnf]
    rw [hshape]
    refine ⟨?_, ?_, ?_, ?_, ?_, ?_, ?_, ?_⟩
    · simp only [List.length_append, List.length_replicate, hnewlen]
      unfold MAX_CMD_LEN at *
      omega
    · simp only []
      unfold MAX_CMD_LEN at *
      omega
    · simp only []
      omega
    · simp only []
      rw [strlen_append_replicate _ hnew, hnewlen]
    · exact padded_append_replicate _ hnew _
    · exact hsl
    · exact hsstr
    · exact hspad
  · rw [if_neg hg]
    exact h

theorem moveLeft_edinv (s : EdState) (h : EdInv s) : EdInv (moveLeft s) := by
  obtain ⟨hblen, hl1023, hpos, hstr, hpad, hsl, hsstr, hspad⟩ := h
  unfold moveLeft
  by_cases hg : 0 < s.pos
  · rw [if_pos hg]
    unfold EdInv
    simp only []
    exact ⟨hblen, hl1023, by omega, hstr, hpad, hsl, hsstr, hspad⟩
  · rw [if_neg hg]
    exact ⟨hblen, hl1023, hpos, hstr, hpad, hsl, hsstr, hspad⟩

theorem moveRight_edinv (s : EdState) (h : EdInv s) : EdInv (moveRight s) := by
  obtain ⟨hblen, hl1023, hpos, hstr, hpad, hsl, hsstr, hspad⟩ := h
  unfold moveRight
  by_cases hg : s.pos < s.len
  · rw [if_pos hg]
    unfold EdInv
    simp only []
    exact ⟨hblen, hl1023, by omega, hstr, hpad, hsl, hsstr, hspad⟩
  · rw [if_neg hg]
    exact ⟨hblen, hl1023, hpos, hstr, hpad, hsl, hsstr, hspad⟩

theorem loadEntry_edinv (e : List Char) (s : EdState) (k : Nat)
    (he : NUL ∉ e) (helen : e.length ≤ MAX_CMD_LEN - 1)
    (hsav : s.saved.length = MAX_CMD_LEN ∧ strlen s.saved ≤ MAX_CMD_LEN - 1 ∧
      padded s.saved) :
    EdInv (loadEntry e s k) := by
  unfold loadEntry EdInv
  rw [strncpyList_entry e he helen]
  have hstr2 : strlen (e ++ List.replicate (MAX_CMD_LEN - e.length) NUL) = e.length :=
    strlen_append_replicate e he _
  refine ⟨?_, ?_, le_refl _, rfl, ?_, hsav.1, hsav.2.1, hsav.2.2⟩
  · show (e ++ List.replicate (MAX_CMD_LEN - e.length) NUL).length = MAX_CMD_LEN
    simp only [List.length_append, List.length_replicate]
    unfold MAX_CMD_LEN at *
    omega
  · show strlen (e ++ List.replicate (MAX_CMD_LEN - e.length) NUL) ≤ MAX_CMD_LEN - 1
    rw [hstr2]
    exact helen
  · exact padded_append_replicate e he _

theorem histwf_getD {hist : HistState} (hh : HistWF hist) (i : Nat) :
    ((hist.entries.get? i).getD []).length ≤ MAX_CMD_LEN - 1 ∧
    NUL ∉ (hist.entries.get? i).getD [] := by
  cases hget : hist.entries.get? i with
  | none =>
    refine ⟨?_, by simp⟩
    unfold MAX_CMD_LEN
    simp
  | some e2 =>
    simp only [Option.getD_some]
    exact ⟨(hh e2 (List.get?_mem hget)).1, (hh e2 (List.get?_mem hget)).2⟩

theorem handleUp_edinv (hist : HistState) (s : EdState) (hh : HistWF hist)
    (h : EdInv s) : EdInv (handleUp hist s) := by
  obtain ⟨hblen, hl1023, hpos, hstr, hpad, hsl, hsstr, hspad⟩ := h
  have hsaved2 :
      (if s.hIdx = 0 then strncpyList s.buf MAX_CMD_LEN else s.saved).length
        = MAX_CMD_LEN ∧
      strlen (if s.hIdx = 0 then strncpyList s.buf MAX_CMD_LEN else s.saved)
        ≤ MAX_CMD_LEN - 1 ∧
      padded (if s.hIdx = 0 then strncpyList s.buf MAX_CMD_LEN else s.saved) := by
    by_cases h0 : s.hIdx = 0
    · rw [if_pos h0, strncpyList_self s.buf hblen (by omega) hpad]
      exact ⟨hblen, by omega, hpad⟩
    · rw [if_neg h0]
      exact ⟨hsl, hsstr, hspad⟩
  unfold handleUp
  by_cases hg : s.hIdx < hist.count
  · rw [if_pos hg]
    by_cases hidx : upAccessIdx hist.count s.hIdx < hist.count
    · rw [if_pos hidx]
      exact loadEntry_edinv _ _ _
        (histwf_getD hh _).2 (histwf_getD hh _).1
        ⟨hsaved2.1, hsaved2.2.1, hsaved2.2.2⟩
    · rw [if_neg hidx]
      exact ⟨hblen, hl1023, hpos, hstr, hpad,
        hsaved2.1, hsaved2.2.1, hsaved2.2.2⟩
  · rw [if_neg hg]
    exact ⟨hblen, hl1023, hpos, hstr, hpad, hsl, hsstr, hspad⟩

theorem handleDown_edinv (hist : HistState) (s : EdState) (hh : HistWF hist)
    (h : EdInv s) : EdInv (handleDown hist s) := by
  obtain ⟨hblen, hl1023, hpos, hstr, hpad, hsl, hsstr, hspad⟩ := h
  unfold handleDown
  by_cases hg : 0 < s.hIdx
  · rw [if_pos hg]
    by_cases h0 : s.hIdx - 1 = 0
    · rw [if_pos h0]
      rw [strncpyList_self s.saved hsl hsstr hspad]
      exact ⟨hsl, hsstr, le_refl _, rfl, hspad, hsl, hsstr, hspad⟩
    · rw [if_neg h0]
      by_cases hidx : hist.count - (s.hIdx - 1) < hist.count
      · rw [if_pos hidx]
        exact loadEntry_edinv _ _ _
          (histwf_getD hh _).2 (histwf_getD hh _).1 ⟨hsl, hsstr, hspad⟩
      · rw [if_neg hidx]
        exact ⟨hblen, hl1023, hpos, hstr, hpad, hsl, hsstr, hspad⟩
  · rw [if_neg hg]
    exact ⟨hblen, hl1023, hpos, hstr, hpad, hsl, hsstr, hspad⟩

/-- Claim C10 (confirmed): the buffer of the line editor never overflows and
stays well formed.  A printable byte is inserted only while
`len < MAX_CMD_LEN - 1` — at capacity the keystroke is dropped and the
state is unchanged — and every editor operation (insertion, backspace,
cursor movement, history recall up/down) preserves the invariant that the
buffer is NUL-terminated exactly at the current length with
`0 ≤ cursor ≤ length ≤ MAX_CMD_LEN - 1`, given well-formed stored history
entries. -/
theorem c10_editor_buffer_safety (hist : HistState) (s : EdState) (c : Char)
    (hh : HistWF hist) (h : EdInv s) :
    (¬ s.len < MAX_CMD_LEN - 1 → insertChar c s = s) ∧
    (isprintC c → EdInv (insertChar c s)) ∧
    EdInv (backspace s) ∧ EdInv (moveLeft s) ∧ EdInv (moveRight s) ∧
    EdInv (handleUp hist s) ∧ EdInv (handleDown hist s) := by
  refine ⟨?_, fun hc => insertChar_edinv c s hc h, backspace_edinv s h,
    moveLeft_edinv s h, moveRight_edinv s h, handleUp_edinv hist s hh h,
    handleDown_edinv hist s hh h⟩
  intro hg
  unfold insertChar
  rw [if_neg hg]

/-- Witness for C10 at the initial editor state and empty history: the
hypotheses hold and the invariant survives an insertion and an Up press. -/
theorem c10_editor_buffer_safety_witness :
    HistWF histInit ∧ EdInv initEd ∧
    EdInv (insertChar 'a' initEd) ∧ EdInv (handleUp histInit initEd) :=
  ⟨by decide, by decide,
    (c10_editor_buffer_safety histInit initEd 'a' (by decide) (by decide)).2.1
      (by decide),
    (c10_editor_buffer_safety histInit initEd 'a' (by decide)
      (by decide)).2.2.2.2.2.1⟩

/-- Claim C8 counterexample: with one stored history line and the buffer
`ab` with the cursor moved to offset 0, pressing Up and then Down restores
the buffer but leaves the cursor at offset 2 (the end of the line), not at
its pre-recall offset 0 — so buffer, length and cursor are not all
restored exactly. -/
theorem c8_counterexample :
    (moveLeft (moveLeft (insertChar 'b' (insertChar 'a' initEd)))).pos = 0 ∧
    (handleDown (submitAll [['x']])
        (handleUp (submitAll [['x']])
          (moveLeft (moveLeft (insertChar 'b' (insertChar 'a' initEd)))))).buf
      = (moveLeft (moveLeft (insertChar 'b' (insertChar 'a' initEd)))).buf ∧
    (handleDown (submitAll [['x']])
        (handleUp (submitAll [['x']])
          (moveLeft (moveLeft (insertChar 'b' (insertChar 'a' initEd)))))).pos
      = 2 := by
  refine ⟨by decide, by decide, by decide⟩

/-- Claim C8 (corrected): pressing Up with empty history mutates nothing;
and from every well-formed editor state that is not already browsing
(browse index 0, so the first Up snapshots the buffer into the draft slot)
with non-empty history, Up followed by Down restores the buffer and the
length exactly and leaves browsing mode — but the cursor is placed at the
end of the restored line, which equals its pre-recall offset only when the
cursor was already at the end. -/
theorem c8_up_down_draft_roundtrip (hist : HistState) (s : EdState) :
    (hist.count = 0 → handleUp hist s = s) ∧
    (EdInv s → s.hIdx = 0 → 0 < hist.count →
      (handleDown hist (handleUp hist s)).buf = s.buf ∧
      (handleDown hist (handleUp hist s)).len = s.len ∧
      (handleDown hist (handleUp hist s)).pos = s.len ∧
      (handleDown hist (handleUp hist s)).hIdx = 0) := by
  constructor
  · intro h0
    unfold handleUp
    rw [if_neg (by omega)]
  · intro h hIdx0 hcnt
    obtain ⟨hblen, hl1023, hpos, hstr, hpad, hsl, hsstr, hspad⟩ := h
    have hB : strncpyList s.buf MAX_CMD_LEN = s.buf :=
      strncpyList_self s.buf hblen (by omega) hpad
    have hup : handleUp hist s
        = loadEntry ((hist.entries.get? (upAccessIdx hist.count s.hIdx)).getD [])
            { s with saved := strncpyList s.buf MAX_CMD_LEN } (s.hIdx + 1) := by
      unfold handleUp
      rw [if_pos (by omega), if_pos (by unfold upAccessIdx; omega), if_pos hIdx0]
    rw [hup]
    unfold handleDown loadEntry
    simp only []
    rw [if_pos (by omega), if_pos (by omega), hB, hB]
    refine ⟨rfl, hstr, hstr, ?_⟩
    show s.hIdx + 1 - 1 = 0
    omega

/-- Witness for C8 at the concrete scenario of `c8_counterexample`: the
round trip restores buffer and length, and parks the cursor at the
length. -/
theorem c8_up_down_draft_roundtrip_witness :
    (handleDown (submitAll [['x']])
        (handleUp (submitAll [['x']])
          (moveLeft (insertChar 'b' (insertChar 'a' initEd))))).buf
      = (moveLeft (insertChar 'b' (insertChar 'a' initEd))).buf ∧
    (handleDown (submitAll [['x']])
        (handleUp (submitAll [['x']])
          (moveLeft (insertChar 'b' (insertChar 'a' initEd))))).len
      = (moveLeft (insertChar 'b' (insertChar 'a' initEd))).len ∧
    (handleDown (submitAll [['x']])
        (handleUp (submitAll [['x']])
          (moveLeft (insertChar 'b' (insertChar 'a' initEd))))).pos
      = (moveLeft (insertChar 'b' (insertChar 'a' initEd))).len := by
  have h := (c8_up_down_draft_roundtrip (submitAll [['x']])
    (moveLeft (insertChar 'b' (insertChar 'a' initEd)))).2
    (by decide) (by decide) (by decide)
  exact ⟨h.1, h.2.1, h.2.2.1⟩

end Shell
